import Mathlib

/-!
# Verification of the NEAR NFT auction contract (`src/src/lib.rs`)

Shallow embedding of the auction contract.  Design choices:

* `NearToken` amounts are `Nat` (yoctoNEAR values; `u128` in the source —
  no arithmetic on amounts is performed by the contract, only comparisons
  and pass-through, so no wrap-around modelling is needed).
* `near_sdk::store::IterableMap` is modelled as an insertion-ordered
  association list: `insert` on a present key replaces the value in place,
  `insert` on an absent key appends, iteration is list order, and `remove`
  is a swap-remove (the removed slot is filled by the last entry), matching
  the `IterableMap` implementation (a key `Vector` with `swap_remove`).
* The `DefaultHasher`-based key derivation `NFTId::new` is std-library
  code external to the repository; it is a pure deterministic function and
  is abstracted as a parameter `deriveId : AccountId → TokenId → NFTId`.
* NEAR promises are modelled as the ordered list of effects they declare:
  `p.then(q)` is list append.  Host-environment inputs
  (`block_timestamp`, `attached_deposit`, `signer_account_id`,
  `predecessor_account_id`) are explicit parameters.
* A panicking/`require!`-failing call is modelled as `Except.error`; on
  NEAR a panic reverts every state mutation of the invocation, so an
  `error` result carries no post-state (state is unchanged).  The
  `apply*` wrappers make that revert semantics explicit.
-/

namespace NftAuction

abbrev AccountId := String
abbrev TokenId := String
/-- `NFTId(u64)` in the source; the hash value used as registry key. -/
abbrev NFTId := Nat
/-- `NearToken`: a monetary amount in yoctoNEAR. -/
abbrev Token := Nat

/-- `struct Bid { amount: NearToken, paid: bool }`. -/
structure Bid where
  amount : Token
  paid : Bool
deriving Repr, DecidableEq

/-- `struct Auction { owner, bids, h_bid, expiry }`.  `bids` is the
insertion-ordered ledger; `h_bid` is the floor / minimum bid fixed at
creation (named `h_bid` in the source). -/
structure Auction where
  owner : AccountId
  bids : List (AccountId × Bid)
  h_bid : Token
  expiry : Nat
deriving Repr, DecidableEq

/-- `struct Contract { auctions: IterableMap<NFTId, Auction> }`. -/
structure Contract where
  auctions : List (NFTId × Auction)
deriving Repr, DecidableEq

/-! ## `IterableMap` operations on association lists -/

section IterableMap

variable {K V : Type} [DecidableEq K]

/-- `IterableMap::get`: value of the first (unique) entry with this key. -/
def imFind? : List (K × V) → K → Option V
  | [], _ => none
  | (k', v) :: rest, k => if k' = k then some v else imFind? rest k

/-- `IterableMap::contains_key`. -/
def imContains (m : List (K × V)) (k : K) : Bool :=
  (imFind? m k).isSome

/-- `IterableMap::insert`: replace in place when the key is present,
append when it is absent. -/
def imInsert : List (K × V) → K → V → List (K × V)
  | [], k, v => [(k, v)]
  | (k', v') :: rest, k, v =>
    if k' = k then (k, v) :: rest else (k', v') :: imInsert rest k v

/-- `IterableMap::remove`: swap-remove — the first entry with this key is
replaced by the last entry of the map, which is then popped. -/
def imRemove : List (K × V) → K → List (K × V)
  | [], _ => []
  | (k', v) :: rest, k =>
    if k' = k then
      match rest.getLast? with
      | none => []
      | some lastE => lastE :: rest.dropLast
    else (k', v) :: imRemove rest k

/-- Key uniqueness, the `IterableMap` representation invariant. -/
abbrev KeysNodup (m : List (K × V)) : Prop :=
  (m.map Prod.fst).Nodup

end IterableMap

/-! ## Errors and effects -/

/-- The panic / `require!` failure reasons of the contract, in the order
they appear in the source. -/
inductive Err where
  /-- `expect("Invalid message")` in `nft_on_approve`. -/
  | malformedRequest
  /-- `require!(timespan > 0, ...)` in `nft_on_approve`. -/
  | invalidParameter
  /-- `checked_add` failure in `nft_on_approve`. -/
  | arithmeticOverflow
  /-- `"this nft is not in auction"`. -/
  | notInAuction
  /-- `"cannot end, auction is still ongoing"`. -/
  | auctionStillOpen
  /-- `"bid amount does not exceed previous bid or minimum bid amount"`. -/
  | bidTooLow
  /-- `"provided deposit does not cover bid amount"`. -/
  | insufficientDeposit
  /-- `"bidder has already made a bid, ..."`. -/
  | duplicateBid
  /-- `"cannot bid, auction is over"`. -/
  | auctionExpired
deriving Repr, DecidableEq

/-- One leg of a promise chain declared by an invocation. -/
inductive Effect where
  /-- `ext_nft_core::nft_transfer(receiver, token, approval, memo)` with an
  attached deposit, addressed to the NFT contract `nft`. -/
  | nftTransfer (nft : AccountId) (receiver : AccountId) (tokenId : TokenId)
      (approvalId : Nat) (deposit : Token)
  /-- `ext_nft_approval::nft_approve(token, account, None)` with an attached
  deposit, addressed to the NFT contract `nft`. -/
  | nftApprove (nft : AccountId) (tokenId : TokenId) (account : AccountId)
      (deposit : Token)
  /-- `Promise::new(receiver).transfer(amount)`. -/
  | transfer (receiver : AccountId) (amount : Token)
deriving Repr, DecidableEq

/-- The account an effect pays or approves. -/
def Effect.receiver : Effect → AccountId
  | .nftTransfer _ r _ _ _ => r
  | .nftApprove _ _ a _ => a
  | .transfer r _ => r

/-! ## Contract operations -/

/-- `struct AuctionParams { timespan: u64, minimum_bid: NearToken }`. -/
structure AuctionParams where
  timespan : Nat
  minimum_bid : Token
deriving Repr, DecidableEq

/-- One past the largest `u64`: `current_time.checked_add(timespan)`
returns `None` exactly when the mathematical sum reaches this bound. -/
def u64Limit : Nat := 2 ^ 64

section Ops

variable (deriveId : AccountId → TokenId → NFTId)

/-- `Contract::start_auction` (the `#[private]` admission continuation):
unconditionally insert a fresh empty auction under `nft_id`. -/
def start_auction (c : Contract) (owner_id : AccountId) (nft_id : NFTId)
    (expiry : Nat) (minimum_bid : Token) : Contract :=
  { auctions := imInsert c.auctions nft_id
      { owner := owner_id, bids := [], h_bid := minimum_bid, expiry := expiry } }

/-- `Contract::nft_on_approve`.  `msg` is the serde-parse result of the
JSON payload (`none` models a parse failure).  On success the invocation
leaves `auctions` untouched and declares an `nft_transfer` effect chained
into a self-call of `start_auction` whose arguments are returned. -/
def nft_on_approve (c : Contract) (predecessorNft : AccountId)
    (currentAccount : AccountId) (token_id : TokenId) (owner_id : AccountId)
    (approval_id : Nat) (msg : Option AuctionParams) (currentTime : Nat) :
    Except Err (Contract × List Effect × (AccountId × NFTId × Nat × Token)) :=
  match msg with
  | none => .error .malformedRequest
  | some params =>
    if params.timespan > 0 then
      if currentTime + params.timespan < u64Limit then
        let expiry := currentTime + params.timespan
        let nft_id := deriveId predecessorNft token_id
        .ok (c,
          [Effect.nftTransfer predecessorNft currentAccount token_id approval_id 1],
          (owner_id, nft_id, expiry, params.minimum_bid))
      else .error .arithmeticOverflow
    else .error .invalidParameter

/-- `Contract::end_auction`: validate, build the settlement promise chain,
swap-remove the auction, and return post-state plus declared effects. -/
def end_auction (c : Contract) (currentTime : Nat) (attachedDeposit : Token)
    (nft : AccountId) (token_id : TokenId) :
    Except Err (Contract × List Effect) :=
  let nft_id := deriveId nft token_id
  match imFind? c.auctions nft_id with
  | none => .error .notInAuction
  | some auction =>
    if auction.expiry ≤ currentTime then
      let promise :=
        match auction.bids.getLast? with
        | some (h_bidder, bid) =>
          Effect.nftApprove nft token_id h_bidder 1 ::
            ((auction.bids.filter
                (fun p => p.1 != h_bidder && !p.2.paid)).foldl
              (fun accum p => accum ++ [Effect.transfer p.1 p.2.amount])
              [Effect.transfer auction.owner bid.amount])
        | none => [Effect.nftApprove nft token_id auction.owner attachedDeposit]
      .ok ({ auctions := imRemove c.auctions nft_id }, promise)
    else .error .auctionStillOpen

/-- `Contract::make_bid`: the five `require!`-style checks in source
order, then insert `Bid { amount, paid: false }` under the signer. -/
def make_bid (c : Contract) (signer : AccountId) (attachedDeposit : Token)
    (currentTime : Nat) (nft : AccountId) (token_id : TokenId)
    (amount : Token) : Except Err Contract :=
  let nft_id := deriveId nft token_id
  match imFind? c.auctions nft_id with
  | none => .error .notInAuction
  | some auction =>
    if auction.h_bid < amount then
      if amount ≤ attachedDeposit then
        if imContains auction.bids signer then .error .duplicateBid
        else if currentTime < auction.expiry then
          let newBid : Bid := { amount := amount, paid := false }
          let auction' := { auction with
            bids := imInsert auction.bids signer newBid }
          .ok { auctions := imInsert c.auctions nft_id auction' }
        else .error .auctionExpired
      else .error .insufficientDeposit
    else .error .bidTooLow

/-- `Contract::len`. -/
def Contract.len (c : Contract) : Nat :=
  c.auctions.length

/-- `Contract::expired`. -/
def expired (c : Contract) (currentTime : Nat) (nft : AccountId)
    (token_id : TokenId) : Except Err Bool :=
  match imFind? c.auctions (deriveId nft token_id) with
  | none => .error .notInAuction
  | some auction => .ok (decide (auction.expiry ≤ currentTime))

/-- The auction as `make_bid` leaves it on success: the ledger gains
`Bid { amount, paid: false }` under the signer; all other fields kept. -/
def bidInserted (a : Auction) (signer : AccountId) (amount : Token) :
    Auction :=
  { a with bids := imInsert a.bids signer { amount := amount, paid := false } }

/-- Post-state of an `end_auction` call under NEAR revert semantics: a
panicking invocation leaves the contract state unchanged. -/
def applyEnd (c : Contract) (currentTime : Nat) (attachedDeposit : Token)
    (nft : AccountId) (token_id : TokenId) : Contract :=
  match end_auction deriveId c currentTime attachedDeposit nft token_id with
  | .ok (c', _) => c'
  | .error _ => c

/-- Post-state of an `nft_on_approve` call under NEAR revert semantics. -/
def applyAdmit (c : Contract) (predecessorNft : AccountId)
    (currentAccount : AccountId) (token_id : TokenId) (owner_id : AccountId)
    (approval_id : Nat) (msg : Option AuctionParams) (currentTime : Nat) :
    Contract :=
  match nft_on_approve deriveId c predecessorNft currentAccount token_id
      owner_id approval_id msg currentTime with
  | .ok (c', _, _) => c'
  | .error _ => c

/-- Post-state of a `make_bid` call under NEAR revert semantics. -/
def applyBid (c : Contract) (signer : AccountId) (attachedDeposit : Token)
    (currentTime : Nat) (nft : AccountId) (token_id : TokenId)
    (amount : Token) : Contract :=
  match make_bid deriveId c signer attachedDeposit currentTime nft token_id
      amount with
  | .ok c' => c'
  | .error _ => c

end Ops

/-! ## Concrete example states used by the witnesses -/

/-- The spec §8 example ledger: bid B1 `(A, 10)` admitted, then B2
`(B, 20)`; floor 5, expiry 100. -/
def exAuction : Auction :=
  { owner := "O",
    bids := [("A", { amount := 10, paid := false }),
             ("B", { amount := 20, paid := false })],
    h_bid := 5, expiry := 100 }

/-- A registry holding `exAuction` under key 7. -/
def exContract : Contract := { auctions := [(7, exAuction)] }

/-- A concrete instantiation of the abstract key-derivation function. -/
def exDerive : AccountId → TokenId → NFTId := fun _ _ => 7

/-- A ledger with a middle entry already marked `paid` (resolved through
the out-of-scope update/refund path): A unpaid, P paid, B last. -/
def exAuctionPaid : Auction :=
  { owner := "O",
    bids := [("A", { amount := 10, paid := false }),
             ("P", { amount := 15, paid := true }),
             ("B", { amount := 20, paid := false })],
    h_bid := 5, expiry := 100 }

/-- A registry holding `exAuctionPaid` under key 7. -/
def exContractPaid : Contract := { auctions := [(7, exAuctionPaid)] }

/-! ## Lemmas about the `IterableMap` model -/

section MapLemmas

variable {K V : Type} [DecidableEq K]

theorem imFind?_eq_none_iff (m : List (K × V)) (k : K) :
    imFind? m k = none ↔ ∀ p ∈ m, p.1 ≠ k := by
  induction m with
  | nil => simp [imFind?]
  | cons p rest ih =>
    obtain ⟨pk, pv⟩ := p
    by_cases h : pk = k
    · subst h
      simp [imFind?]
    · simp [imFind?, h, ih]

theorem imFind?_insert (m : List (K × V)) (k k' : K) (v : V) :
    imFind? (imInsert m k v) k' = if k = k' then some v else imFind? m k' := by
  induction m with
  | nil =>
    by_cases h : k = k' <;> simp [imInsert, imFind?, h]
  | cons p rest ih =>
    obtain ⟨pk, pv⟩ := p
    by_cases hpk : pk = k
    · subst hpk
      by_cases h : pk = k' <;> simp [imInsert, imFind?, h]
    · by_cases h : pk = k'
      · subst h
        have hkk : ¬ k = pk := fun hc => hpk hc.symm
        simp [imInsert, hpk, imFind?, hkk]
      · simp [imInsert, hpk, imFind?, h, ih]

theorem imInsert_of_not_contains (m : List (K × V)) (k : K) (v : V)
    (h : imContains m k = false) : imInsert m k v = m ++ [(k, v)] := by
  induction m with
  | nil => simp [imInsert]
  | cons p rest ih =>
    obtain ⟨pk, pv⟩ := p
    by_cases hpk : pk = k
    · subst hpk
      simp [imContains, imFind?] at h
    · simp [imContains, imFind?, hpk] at h
      simp [imInsert, hpk, ih]
      exact ih (by simpa [imContains] using h)

theorem imInsert_length_of_contains (m : List (K × V)) (k : K) (v : V)
    (h : imContains m k = true) : (imInsert m k v).length = m.length := by
  induction m with
  | nil => simp [imContains, imFind?] at h
  | cons p rest ih =>
    obtain ⟨pk, pv⟩ := p
    by_cases hpk : pk = k
    · subst hpk
      simp [imInsert]
    · simp [imContains, imFind?, hpk] at h
      simp [imInsert, hpk]
      exact ih (by simpa [imContains] using h)

theorem imRemove_length (m : List (K × V)) (k : K)
    (h : imContains m k = true) : (imRemove m k).length + 1 = m.length := by
  induction m with
  | nil => simp [imContains, imFind?] at h
  | cons p rest ih =>
    obtain ⟨pk, pv⟩ := p
    by_cases hpk : pk = k
    · subst hpk
      cases hrest : rest.getLast? with
      | none =>
        have : rest = [] := by
          cases rest with
          | nil => rfl
          | cons q qs => simp [List.getLast?_concat] at hrest
        subst this
        simp [imRemove]
      | some lastE =>
        have hne : rest ≠ [] := by
          intro hc
          subst hc
          simp at hrest
        have hpos : 0 < rest.length := List.length_pos.mpr hne
        simp [imRemove, hrest, List.length_dropLast]
        omega
    · simp [imContains, imFind?, hpk] at h
      simp only [imRemove, if_neg hpk, List.length_cons]
      have := ih (by simpa [imContains] using h)
      omega

theorem imRemove_find?_none (m : List (K × V)) (k : K)
    (hnd : KeysNodup m) : imFind? (imRemove m k) k = none := by
  induction m with
  | nil => simp [imRemove, imFind?]
  | cons p rest ih =>
    obtain ⟨pk, pv⟩ := p
    have hnd' : KeysNodup rest := by
      simpa [KeysNodup] using (List.nodup_cons.mp (by simpa [KeysNodup] using hnd)).2
    by_cases hpk : pk = k
    · subst hpk
      have hnotin : pk ∉ rest.map Prod.fst :=
        (List.nodup_cons.mp (by simpa [KeysNodup] using hnd)).1
      cases hrest : rest.getLast? with
      | none => simp [imRemove, hrest, imFind?]
      | some lastE =>
        have hlastmem : lastE ∈ rest := by
          obtain ⟨hne2, heq⟩ :=
            List.mem_getLast?_eq_getLast (l := rest) (x := lastE)
              (by simp [hrest])
          exact heq ▸ List.getLast_mem hne2
        simp only [imRemove, if_pos rfl, hrest]
        rw [imFind?_eq_none_iff]
        intro q hq
        rcases List.mem_cons.mp hq with hql | hqd
        · subst hql
          intro hc
          exact hnotin (hc ▸ List.mem_map_of_mem Prod.fst hlastmem)
        · intro hc
          have hqmem : q ∈ rest := List.dropLast_subset rest hqd
          exact hnotin (hc ▸ List.mem_map_of_mem Prod.fst hqmem)
    · simp only [imRemove, if_neg hpk, imFind?]
      simp [hpk, ih hnd']

theorem foldl_append_singleton {α β : Type} (f : α → β) (l : List α)
    (init : List β) :
    l.foldl (fun accum x => accum ++ [f x]) init = init ++ l.map f := by
  induction l generalizing init with
  | nil => simp
  | cons x xs ih => simp [List.foldl_cons, ih, List.append_assoc]

end MapLemmas

/-- Specialisation of `foldl_append_singleton` to the refund fold of
`end_auction`. -/
theorem foldl_transfer_eq (l : List (AccountId × Bid)) (init : List Effect) :
    l.foldl (fun accum p => accum ++ [Effect.transfer p.1 p.2.amount]) init =
      init ++ l.map (fun p => Effect.transfer p.1 p.2.amount) :=
  foldl_append_singleton _ l init

/-! ## Claim theorems -/

/-- C1: for every auction with at least one bid, `end_auction` selects as
winner the last entry in the bid ledger's iteration order (insertion
order), regardless of bid amounts: the settlement promise approves the
NFT to that last entry's participant and pays that entry's amount to the
owner. -/
theorem C1_winner_is_last_ledger_entry
    (deriveId : AccountId → TokenId → NFTId) (c : Contract)
    (currentTime : Nat) (dep : Token) (nft : AccountId) (tok : TokenId)
    (auction : Auction) (winner : AccountId) (wbid : Bid)
    (hfind : imFind? c.auctions (deriveId nft tok) = some auction)
    (hlast : auction.bids.getLast? = some (winner, wbid))
    (ht : auction.expiry ≤ currentTime) :
    ∃ c' rest, end_auction deriveId c currentTime dep nft tok =
      .ok (c', Effect.nftApprove nft tok winner 1 ::
        Effect.transfer auction.owner wbid.amount :: rest) := by
  refine ⟨{ auctions := imRemove c.auctions (deriveId nft tok) },
    (auction.bids.filter (fun p => p.1 != winner && !p.2.paid)).map
      (fun p => Effect.transfer p.1 p.2.amount), ?_⟩
  simp only [end_auction, hfind, if_pos ht, hlast, foldl_transfer_eq,
    List.singleton_append]

/-- Witness for C1: on the spec's example (A bids 10 first, B bids 20
second) settlement names B winner and pays 20 to the owner, even though
the check would equally pick B were the amounts reversed. -/
theorem C1_witness :
    ∃ c' rest, end_auction exDerive exContract 100 0 "nft" "tok" =
      .ok (c', Effect.nftApprove "nft" "tok" "B" 1 ::
        Effect.transfer "O" 20 :: rest) :=
  C1_winner_is_last_ledger_entry exDerive exContract 100 0 "nft" "tok"
    exAuction "B" { amount := 20, paid := false } rfl rfl (by decide)

/-- C10: the owner-payment leg of the fan-out is unconditional: even when
the winning (last-inserted) bid is already marked `paid`, the transfer of
its amount to the owner is still issued, because the `paid` filter is
applied only to the refund legs. -/
theorem C10_owner_leg_unconditional
    (deriveId : AccountId → TokenId → NFTId) (c : Contract)
    (currentTime : Nat) (dep : Token) (nft : AccountId) (tok : TokenId)
    (auction : Auction) (winner : AccountId) (wbid : Bid)
    (hfind : imFind? c.auctions (deriveId nft tok) = some auction)
    (hlast : auction.bids.getLast? = some (winner, wbid))
    (hpaid : wbid.paid = true)
    (ht : auction.expiry ≤ currentTime) :
    ∃ c' rest, end_auction deriveId c currentTime dep nft tok =
      .ok (c', Effect.nftApprove nft tok winner 1 ::
        Effect.transfer auction.owner wbid.amount :: rest) := by
  refine ⟨{ auctions := imRemove c.auctions (deriveId nft tok) },
    (auction.bids.filter (fun p => p.1 != winner && !p.2.paid)).map
      (fun p => Effect.transfer p.1 p.2.amount), ?_⟩
  simp only [end_auction, hfind, if_pos ht, hlast, foldl_transfer_eq,
    List.singleton_append]

/-- Witness for C10: with the winner's bid marked `paid := true`, the
owner still receives the winning amount. -/
theorem C10_witness :
    ∃ c' rest,
      end_auction exDerive
        { auctions := [(7, { exAuction with
            bids := [("A", { amount := 10, paid := false }),
                     ("B", { amount := 20, paid := true })] })] }
        100 0 "nft" "tok" =
      .ok (c', Effect.nftApprove "nft" "tok" "B" 1 ::
        Effect.transfer "O" 20 :: rest) :=
  C10_owner_leg_unconditional exDerive _ 100 0 "nft" "tok"
    ({ exAuction with
       bids := [("A", { amount := 10, paid := false }),
                ("B", { amount := 20, paid := true })] })
    "B" { amount := 20, paid := true } rfl rfl rfl (by decide)

/-- C5: `end_auction` strictly before expiry fails with
`AuctionStillOpen` and (under NEAR revert semantics) the auction remains
present and unmodified; with no auction under the derived key it fails
with `NotInAuction`. -/
theorem C5_settle_early_or_missing_fails
    (deriveId : AccountId → TokenId → NFTId) (c : Contract)
    (currentTime : Nat) (dep : Token) (nft : AccountId) (tok : TokenId) :
    (imFind? c.auctions (deriveId nft tok) = none →
      end_auction deriveId c currentTime dep nft tok =
        .error .notInAuction) ∧
    (∀ auction, imFind? c.auctions (deriveId nft tok) = some auction →
      currentTime < auction.expiry →
      end_auction deriveId c currentTime dep nft tok =
        .error .auctionStillOpen ∧
      applyEnd deriveId c currentTime dep nft tok = c ∧
      imFind? (applyEnd deriveId c currentTime dep nft tok).auctions
        (deriveId nft tok) = some auction) := by
  constructor
  · intro h
    simp [end_auction, h]
  · intro auction ha hlt
    have hnle : ¬ auction.expiry ≤ currentTime := by omega
    have herr : end_auction deriveId c currentTime dep nft tok =
        .error .auctionStillOpen := by
      simp [end_auction, ha, hnle]
    refine ⟨herr, ?_, ?_⟩
    · simp [applyEnd, herr]
    · simp [applyEnd, herr, ha]

/-- Witness for C5: at time 99 < expiry 100 the example auction cannot be
settled and stays in the registry; an empty registry reports
`NotInAuction`. -/
theorem C5_witness :
    (end_auction exDerive { auctions := [] } 99 0 "nft" "tok" =
      .error .notInAuction) ∧
    (end_auction exDerive exContract 99 0 "nft" "tok" =
      .error .auctionStillOpen ∧
     applyEnd exDerive exContract 99 0 "nft" "tok" = exContract ∧
     imFind? (applyEnd exDerive exContract 99 0 "nft" "tok").auctions
       (exDerive "nft" "tok") = some exAuction) :=
  ⟨(C5_settle_early_or_missing_fails exDerive { auctions := [] }
      99 0 "nft" "tok").1 rfl,
   (C5_settle_early_or_missing_fails exDerive exContract
      99 0 "nft" "tok").2 exAuction rfl (by decide)⟩

/-- C3: every successful `end_auction` removes the auction under the
derived key from the registry, synchronously in the same invocation that
produced the effect list: in the returned post-state the key is absent,
the live-auction count has dropped by exactly one, and a subsequent
`expired` query fails with `NotInAuction`. -/
theorem C3_settlement_removes_auction
    (deriveId : AccountId → TokenId → NFTId) (c c' : Contract)
    (currentTime : Nat) (dep : Token) (nft : AccountId) (tok : TokenId)
    (effs : List Effect)
    (hnd : KeysNodup c.auctions)
    (hok : end_auction deriveId c currentTime dep nft tok = .ok (c', effs)) :
    imFind? c'.auctions (deriveId nft tok) = none ∧
    c'.len + 1 = c.len ∧
    expired deriveId c' currentTime nft tok = .error .notInAuction := by
  cases hfind : imFind? c.auctions (deriveId nft tok) with
  | none => simp [end_auction, hfind] at hok
  | some auction =>
    by_cases ht : auction.expiry ≤ currentTime
    · have hc' : c' = { auctions := imRemove c.auctions (deriveId nft tok) } := by
        simp only [end_auction, hfind, if_pos ht] at hok
        exact (congrArg Prod.fst (Except.ok.inj hok)).symm
      have hnone : imFind? c'.auctions (deriveId nft tok) = none := by
        rw [hc']
        exact imRemove_find?_none _ _ hnd
      refine ⟨hnone, ?_, ?_⟩
      · rw [hc']
        simp only [Contract.len]
        exact imRemove_length _ _ (by simp [imContains, hfind])
      · simp [expired, hnone]
    · simp [end_auction, hfind, ht] at hok

/-- Witness for C3: settling the example auction at its expiry empties
the registry and makes `expired` report `NotInAuction`. -/
theorem C3_witness :
    imFind? (applyEnd exDerive exContract 100 0 "nft" "tok").auctions
      (exDerive "nft" "tok") = none ∧
    (applyEnd exDerive exContract 100 0 "nft" "tok").len + 1 =
      exContract.len ∧
    expired exDerive (applyEnd exDerive exContract 100 0 "nft" "tok")
      100 "nft" "tok" = .error .notInAuction :=
  C3_settlement_removes_auction exDerive exContract
    (applyEnd exDerive exContract 100 0 "nft" "tok") 100 0 "nft" "tok"
    [Effect.nftApprove "nft" "tok" "B" 1, Effect.transfer "O" 20,
     Effect.transfer "A" 10]
    (by decide) rfl

/-- C8: settling an auction with zero bids issues exactly one
asset-transfer-approval naming the owner as recipient, passing through
the caller's entire attached deposit, and removes the auction. -/
theorem C8_no_bids_returns_asset_to_owner
    (deriveId : AccountId → TokenId → NFTId) (c : Contract)
    (currentTime : Nat) (dep : Token) (nft : AccountId) (tok : TokenId)
    (auction : Auction)
    (hnd : KeysNodup c.auctions)
    (hfind : imFind? c.auctions (deriveId nft tok) = some auction)
    (hnobids : auction.bids = [])
    (ht : auction.expiry ≤ currentTime) :
    end_auction deriveId c currentTime dep nft tok =
      .ok ({ auctions := imRemove c.auctions (deriveId nft tok) },
           [Effect.nftApprove nft tok auction.owner dep]) ∧
    imFind? (imRemove c.auctions (deriveId nft tok))
      (deriveId nft tok) = none := by
  constructor
  · simp [end_auction, hfind, ht, hnobids]
  · exact imRemove_find?_none _ _ hnd

/-- C2: the settlement fan-out of an auction with at least one bid pays
the winning bid's amount to the owner exactly once (the leg right after
the NFT approval), then issues, in ledger iteration order, exactly one
refund of each entry's amount to every non-winner entry whose `paid` flag
is false; `paid` entries get no refund, and (keys being unique) no entry
is refunded twice — the refund legs are pairwise distinct. -/
theorem C2_fanout_pays_owner_and_refunds_losers
    (deriveId : AccountId → TokenId → NFTId) (c : Contract)
    (currentTime : Nat) (dep : Token) (nft : AccountId) (tok : TokenId)
    (auction : Auction) (winner : AccountId) (wbid : Bid)
    (hnd : KeysNodup auction.bids)
    (hfind : imFind? c.auctions (deriveId nft tok) = some auction)
    (hlast : auction.bids.getLast? = some (winner, wbid))
    (ht : auction.expiry ≤ currentTime) :
    (∃ c', end_auction deriveId c currentTime dep nft tok =
      .ok (c',
        Effect.nftApprove nft tok winner 1 ::
        Effect.transfer auction.owner wbid.amount ::
        (auction.bids.filter (fun p => p.1 != winner && !p.2.paid)).map
          (fun p => Effect.transfer p.1 p.2.amount))) ∧
    ((auction.bids.filter (fun p => p.1 != winner && !p.2.paid)).map
      (fun p => Effect.transfer p.1 p.2.amount)).Nodup := by
  constructor
  · refine ⟨{ auctions := imRemove c.auctions (deriveId nft tok) }, ?_⟩
    simp only [end_auction, hfind, if_pos ht, hlast, foldl_transfer_eq,
      List.singleton_append]
  · have hsub :
        ((auction.bids.filter (fun p => p.1 != winner && !p.2.paid)).map
          Prod.fst).Sublist (auction.bids.map Prod.fst) :=
      (List.filter_sublist _).map Prod.fst
    have hfk :
        ((auction.bids.filter (fun p => p.1 != winner && !p.2.paid)).map
          Prod.fst).Nodup := List.Nodup.sublist hsub hnd
    have hfl :
        (auction.bids.filter (fun p => p.1 != winner && !p.2.paid)).Nodup :=
      List.Nodup.of_map Prod.fst hfk
    refine List.Nodup.map_on ?_ hfl
    intro x hx y hy hxy
    have hk : x.1 = y.1 := by
      injection hxy
    exact List.inj_on_of_nodup_map hfk hx hy hk

/-- Witness for C2: with ledger A (10, unpaid), P (15, paid), B (20,
last): the fan-out is approve-to-B, pay 20 to owner O, refund 10 to A;
P is skipped and nobody is refunded twice. -/
theorem C2_witness :
    (∃ c', end_auction exDerive exContractPaid 100 0 "nft" "tok" =
      .ok (c', [Effect.nftApprove "nft" "tok" "B" 1,
                Effect.transfer "O" 20,
                Effect.transfer "A" 10])) ∧
    ([Effect.transfer "A" 10] : List Effect).Nodup := by
  obtain ⟨⟨c', hex⟩, _⟩ :=
    C2_fanout_pays_owner_and_refunds_losers exDerive exContractPaid
      100 0 "nft" "tok" exAuctionPaid "B" { amount := 20, paid := false }
      (by decide) rfl rfl (by decide)
  refine ⟨⟨c', ?_⟩, by decide⟩
  rw [hex]
  rfl

/-- Witness for C8: a bid-less auction settled with 3 attached yoctoNEAR
yields a single approval to the owner carrying all 3, and the registry
entry is gone. -/
theorem C8_witness :
    end_auction exDerive
      { auctions := [(7, { exAuction with bids := [] })] }
      100 3 "nft" "tok" =
      .ok ({ auctions := imRemove
              [(7, { exAuction with bids := [] })] (exDerive "nft" "tok") },
           [Effect.nftApprove "nft" "tok" "O" 3]) ∧
    imFind? (imRemove [(7, { exAuction with bids := [] })]
      (exDerive "nft" "tok")) (exDerive "nft" "tok") = none :=
  C8_no_bids_returns_asset_to_owner exDerive
    { auctions := [(7, { exAuction with bids := [] })] }
    100 3 "nft" "tok" { exAuction with bids := [] }
    (by decide) rfl rfl (by decide)

/-- C4: `make_bid` validates in source order and fail-fast — auction
exists (`NotInAuction`), `amount > floor` (`BidTooLow`), attached funds
cover the amount (`InsufficientDeposit`), no existing entry for the
signer (`DuplicateBid`), auction not yet expired (`AuctionExpired`) —
with no state mutation on any failure; when all checks pass it appends
exactly the entry `Bid { amount, paid := false }` keyed by the signer and
leaves every other registry key untouched. -/
theorem C4_make_bid_checks_in_order
    (deriveId : AccountId → TokenId → NFTId) (c : Contract)
    (signer : AccountId) (dep : Token) (currentTime : Nat)
    (nft : AccountId) (tok : TokenId) (amount : Token) :
    (imFind? c.auctions (deriveId nft tok) = none →
      make_bid deriveId c signer dep currentTime nft tok amount =
        .error .notInAuction) ∧
    (∀ a, imFind? c.auctions (deriveId nft tok) = some a →
      (amount ≤ a.h_bid →
        make_bid deriveId c signer dep currentTime nft tok amount =
          .error .bidTooLow) ∧
      (a.h_bid < amount → dep < amount →
        make_bid deriveId c signer dep currentTime nft tok amount =
          .error .insufficientDeposit) ∧
      (a.h_bid < amount → amount ≤ dep →
        imContains a.bids signer = true →
        make_bid deriveId c signer dep currentTime nft tok amount =
          .error .duplicateBid) ∧
      (a.h_bid < amount → amount ≤ dep →
        imContains a.bids signer = false → a.expiry ≤ currentTime →
        make_bid deriveId c signer dep currentTime nft tok amount =
          .error .auctionExpired) ∧
      (a.h_bid < amount → amount ≤ dep →
        imContains a.bids signer = false → currentTime < a.expiry →
        ∃ c2, make_bid deriveId c signer dep currentTime nft tok amount =
            .ok c2 ∧
          imFind? c2.auctions (deriveId nft tok) =
            some ({ a with bids :=
              a.bids ++ [(signer, { amount := amount, paid := false })] }) ∧
          (∀ k, k ≠ deriveId nft tok →
            imFind? c2.auctions k = imFind? c.auctions k))) ∧
    (∀ e, make_bid deriveId c signer dep currentTime nft tok amount =
        .error e →
      applyBid deriveId c signer dep currentTime nft tok amount = c) := by
  refine ⟨?_, ?_, ?_⟩
  · intro h
    simp [make_bid, h]
  · intro a ha
    refine ⟨?_, ?_, ?_, ?_, ?_⟩
    · intro hle
      have hnlt : ¬ a.h_bid < amount := Nat.not_lt.mpr hle
      simp [make_bid, ha, hnlt]
    · intro hgt hdep
      have hnle : ¬ amount ≤ dep := Nat.not_le.mpr hdep
      simp [make_bid, ha, hgt, hnle]
    · intro hgt hdep hcont
      simp [make_bid, ha, hgt, hdep, hcont]
    · intro hgt hdep hncont hexp
      have hnlt : ¬ currentTime < a.expiry := by omega
      simp [make_bid, ha, hgt, hdep, hncont, hnlt]
    · intro hgt hdep hncont hlt
      refine ⟨Contract.mk (imInsert c.auctions (deriveId nft tok)
          (bidInserted a signer amount)), ?_, ?_, ?_⟩
      · simp [make_bid, ha, hgt, hdep, hncont, hlt, bidInserted]
      · rw [imFind?_insert, if_pos rfl]
        rw [show bidInserted a signer amount = { a with
          bids := imInsert a.bids signer { amount := amount, paid := false } }
          from rfl]
        rw [imInsert_of_not_contains a.bids signer _ hncont]
      · intro k hk
        rw [imFind?_insert, if_neg (fun h => hk h.symm)]
  · intro e he
    simp [applyBid, he]

/-- Witness for C4: on the example registry — an absent key reports
`NotInAuction`; re-bidding as A reports `DuplicateBid`; a fresh compliant
bid by C (amount 30, deposit 30) is admitted exactly once, appended at
the ledger's end with `paid := false`, leaving other keys untouched. -/
theorem C4_witness :
    (make_bid exDerive { auctions := [] } "C" 30 50 "nft" "tok" 30 =
      .error .notInAuction) ∧
    (make_bid exDerive exContract "A" 30 50 "nft" "tok" 30 =
      .error .duplicateBid) ∧
    (∃ c2, make_bid exDerive exContract "C" 30 50 "nft" "tok" 30 =
        .ok c2 ∧
      imFind? c2.auctions (exDerive "nft" "tok") =
        some ({ exAuction with bids := exAuction.bids ++
          [("C", { amount := 30, paid := false })] }) ∧
      (∀ k, k ≠ exDerive "nft" "tok" →
        imFind? c2.auctions k = imFind? exContract.auctions k)) :=
  ⟨(C4_make_bid_checks_in_order exDerive { auctions := [] }
      "C" 30 50 "nft" "tok" 30).1 rfl,
   ((C4_make_bid_checks_in_order exDerive exContract
      "A" 30 50 "nft" "tok" 30).2.1 exAuction rfl).2.2.1
      (by decide) (by decide) (by decide),
   ((C4_make_bid_checks_in_order exDerive exContract
      "C" 30 50 "nft" "tok" 30).2.1 exAuction rfl).2.2.2.2
      (by decide) (by decide) (by decide) (by decide)⟩

/-- C6: the floor (`h_bid`) is fixed at creation: `start_auction`
installs it from `minimum_bid`, and a successful `make_bid` never
changes `h_bid` (nor `owner` nor `expiry`) of any auction in the
registry, so admission always compares against the creation-time
minimum; a bid at or below it is rejected with `BidTooLow`. -/
theorem C6_floor_fixed_at_creation
    (deriveId : AccountId → TokenId → NFTId) (c : Contract)
    (signer : AccountId) (dep : Token) (currentTime : Nat)
    (nft : AccountId) (tok : TokenId) (amount : Token) :
    (∀ owner nid expiry minBid,
      imFind? (start_auction c owner nid expiry minBid).auctions nid =
        some { owner := owner, bids := [], h_bid := minBid,
               expiry := expiry }) ∧
    (∀ c2, make_bid deriveId c signer dep currentTime nft tok amount =
        .ok c2 →
      ∀ k a, imFind? c.auctions k = some a →
        ∃ a2, imFind? c2.auctions k = some a2 ∧
          a2.h_bid = a.h_bid ∧ a2.owner = a.owner ∧
          a2.expiry = a.expiry) ∧
    (∀ a, imFind? c.auctions (deriveId nft tok) = some a →
      amount ≤ a.h_bid →
      make_bid deriveId c signer dep currentTime nft tok amount =
        .error .bidTooLow) := by
  refine ⟨?_, ?_, ?_⟩
  · intro owner nid expiry minBid
    simp [start_auction, imFind?_insert]
  · intro c2 hok k a hka
    cases hfind : imFind? c.auctions (deriveId nft tok) with
    | none => simp [make_bid, hfind] at hok
    | some a0 =>
      by_cases h1 : a0.h_bid < amount
      · by_cases h2 : amount ≤ dep
        · cases h3 : imContains a0.bids signer with
          | true => simp [make_bid, hfind, h1, h2, h3] at hok
          | false =>
            by_cases h4 : currentTime < a0.expiry
            · simp only [make_bid, hfind, if_pos h1, if_pos h2, h3,
                Bool.false_eq_true, if_false, if_pos h4,
                Except.ok.injEq] at hok
              by_cases hk : deriveId nft tok = k
              · subst hk
                have haa : a = a0 := by
                  rw [hfind] at hka
                  exact (Option.some.inj hka).symm
                rw [haa]
                refine ⟨bidInserted a0 signer amount, ?_, rfl, rfl, rfl⟩
                rw [← hok, imFind?_insert, if_pos rfl]
                rfl
              · refine ⟨a, ?_, rfl, rfl, rfl⟩
                rw [← hok, imFind?_insert, if_neg hk]
                exact hka
            · simp [make_bid, hfind, h1, h2, h3, h4] at hok
        · simp [make_bid, hfind, h1, h2] at hok
      · simp [make_bid, hfind, h1] at hok
  · intro a ha hle
    have hnlt : ¬ a.h_bid < amount := Nat.not_lt.mpr hle
    simp [make_bid, ha, hnlt]

/-- Witness for C6: creating an auction with minimum 9 installs floor 9;
after C's successful bid of 30 the example auction still has floor 5,
owner O and expiry 100; and a bid of exactly the floor (5) is rejected
`BidTooLow`. -/
theorem C6_witness :
    (imFind? (start_auction exContract "P" 9 200 9).auctions 9 =
      some { owner := "P", bids := [], h_bid := 9, expiry := 200 }) ∧
    (∃ a2, imFind?
        (applyBid exDerive exContract "C" 30 50 "nft" "tok" 30).auctions
        7 = some a2 ∧
      a2.h_bid = exAuction.h_bid ∧ a2.owner = exAuction.owner ∧
      a2.expiry = exAuction.expiry) ∧
    (make_bid exDerive exContract "C" 30 50 "nft" "tok" 5 =
      .error .bidTooLow) :=
  ⟨(C6_floor_fixed_at_creation exDerive exContract
      "C" 30 50 "nft" "tok" 30).1 "P" 9 200 9,
   (C6_floor_fixed_at_creation exDerive exContract
      "C" 30 50 "nft" "tok" 30).2.1
      (applyBid exDerive exContract "C" 30 50 "nft" "tok" 30) rfl
      7 exAuction rfl,
   (C6_floor_fixed_at_creation exDerive exContract
      "C" 30 50 "nft" "tok" 5).2.2 exAuction rfl (by decide)⟩

/-- C7: admission (`nft_on_approve`) aborts with `InvalidParameter` when
the requested duration is not positive, and with `ArithmeticOverflow`
when `current-time + duration` exceeds the `u64` timestamp range; and no
invocation of `nft_on_approve` itself ever changes the registry (auction
creation only happens in the `start_auction` continuation). -/
theorem C7_admission_rejects_bad_duration
    (deriveId : AccountId → TokenId → NFTId) (c : Contract)
    (nftAcc cur : AccountId) (tok : TokenId) (owner : AccountId)
    (appr : Nat) (msg : Option AuctionParams) (currentTime : Nat) :
    (∀ p, msg = some p → p.timespan = 0 →
      nft_on_approve deriveId c nftAcc cur tok owner appr msg
        currentTime = .error .invalidParameter) ∧
    (∀ p, msg = some p → currentTime < u64Limit →
      u64Limit ≤ currentTime + p.timespan →
      nft_on_approve deriveId c nftAcc cur tok owner appr msg
        currentTime = .error .arithmeticOverflow) ∧
    applyAdmit deriveId c nftAcc cur tok owner appr msg currentTime =
      c := by
  refine ⟨?_, ?_, ?_⟩
  · intro p hp h0
    subst hp
    simp [nft_on_approve, h0]
  · intro p hp hcur hov
    subst hp
    have hpos : 0 < p.timespan := by omega
    have hnlt : ¬ currentTime + p.timespan < u64Limit := by omega
    simp [nft_on_approve, hpos, hnlt]
  · cases msg with
    | none => simp [applyAdmit, nft_on_approve]
    | some p =>
      by_cases h1 : 0 < p.timespan
      · by_cases h2 : currentTime + p.timespan < u64Limit
        · simp [applyAdmit, nft_on_approve, h1, h2]
        · simp [applyAdmit, nft_on_approve, h1, h2]
      · simp [applyAdmit, nft_on_approve, h1]

/-- Witness for C7: duration 0 is rejected `InvalidParameter`; at time
50, a duration pushing the expiry to 2^64 is rejected
`ArithmeticOverflow`; both leave the example registry as it was. -/
theorem C7_witness :
    (nft_on_approve exDerive exContract "nft" "me" "tok" "O" 1
      (some { timespan := 0, minimum_bid := 5 }) 50 =
      .error .invalidParameter) ∧
    (nft_on_approve exDerive exContract "nft" "me" "tok" "O" 1
      (some { timespan := 2 ^ 64 - 50, minimum_bid := 5 }) 50 =
      .error .arithmeticOverflow) ∧
    applyAdmit exDerive exContract "nft" "me" "tok" "O" 1
      (some { timespan := 0, minimum_bid := 5 }) 50 = exContract :=
  ⟨(C7_admission_rejects_bad_duration exDerive exContract "nft" "me"
      "tok" "O" 1 (some { timespan := 0, minimum_bid := 5 }) 50).1
      { timespan := 0, minimum_bid := 5 } rfl rfl,
   (C7_admission_rejects_bad_duration exDerive exContract "nft" "me"
      "tok" "O" 1 (some { timespan := 2 ^ 64 - 50, minimum_bid := 5 })
      50).2.1 { timespan := 2 ^ 64 - 50, minimum_bid := 5 } rfl
      (by decide) (by decide),
   (C7_admission_rejects_bad_duration exDerive exContract "nft" "me"
      "tok" "O" 1 (some { timespan := 0, minimum_bid := 5 }) 50).2.2⟩

/-- C9: `start_auction` on a key that already holds a live auction
silently replaces it with the freshly created empty auction: the call is
total (no error path exists), the registry keeps the same size, the old
auction and all its recorded bids are gone from the key, and no transfer
effect is issued for the displaced bids (`start_auction` declares no
effects at all — its return type carries none). -/
theorem C9_start_auction_silently_replaces
    (c : Contract) (owner : AccountId) (nid : NFTId) (expiry : Nat)
    (minBid : Token) (aOld : Auction)
    (hold : imFind? c.auctions nid = some aOld) :
    imFind? (start_auction c owner nid expiry minBid).auctions nid =
      some { owner := owner, bids := [], h_bid := minBid,
             expiry := expiry } ∧
    (start_auction c owner nid expiry minBid).auctions.length =
      c.auctions.length ∧
    (∀ k, k ≠ nid →
      imFind? (start_auction c owner nid expiry minBid).auctions k =
        imFind? c.auctions k) := by
  refine ⟨?_, ?_, ?_⟩
  · simp [start_auction, imFind?_insert]
  · simp only [start_auction]
    exact imInsert_length_of_contains _ _ _ (by simp [imContains, hold])
  · intro k hk
    simp only [start_auction]
    rw [imFind?_insert, if_neg (fun h => hk h.symm)]

/-- Witness for C9: re-admitting key 7 over the example auction (which
holds bids from A and B) leaves a one-entry registry whose auction under
key 7 is empty — the displaced bids are simply gone. -/
theorem C9_witness :
    imFind? (start_auction exContract "P" 7 200 9).auctions 7 =
      some { owner := "P", bids := [], h_bid := 9, expiry := 200 } ∧
    (start_auction exContract "P" 7 200 9).auctions.length =
      exContract.auctions.length ∧
    (∀ k, k ≠ 7 →
      imFind? (start_auction exContract "P" 7 200 9).auctions k =
        imFind? exContract.auctions k) :=
  C9_start_auction_silently_replaces exContract "P" 7 200 9 exAuction rfl

end NftAuction
